import Mathlib

/-!
Shallow embedding of the dollar-vs-fixed-term-deposit monitor (`mi_app.py`).

Dates are modelled as integers (day numbers, so calendar subtraction is
integer subtraction) and monetary values and rates as rationals.  The
pandas pipeline is modelled as follows:

* `cargar_datos_dolar` — the quote normaliser: `pivot_table` over
  `(fecha, casa, venta)` records with the default mean aggregation,
  capitalised column names, and `dropna(subset=['Oficial'])` (a missing
  `Oficial` column raises and the loader yields `none`).
* `cargar_datos_plazo_fijo` — the rate normaliser: column access by the
  labels `fecha` and `valor`; any failure yields `none` (the `except`
  branch of the source).
* `df_completo` — outer join on the union of dates, `ffill` of the rate
  column only, then `dropna` on every quote column.
* `df_comparativa` — the rolling comparison: the sub-table of the chosen
  column and the rate, `dropna`, descending sort, row-wise `shift(-n)`
  for the start value and start date, the two percentage returns, a
  second `dropna`, and the winner classification `determinar_ganador`.
* `seccionComparativa`, `paginaPrincipal` — the surrounding control flow
  (`if dolar_a_comparar and periodo_dias:` and the load guard with its
  error fallback).
-/

namespace MiApp

/-- One raw quote record of the quote source: a date, a house name and a
sale price (`fecha`, `casa`, `venta`). -/
structure RegistroDolar where
  fecha : Int
  casa : String
  venta : Rat
deriving DecidableEq

/-- Python `str.capitalize`: first character upper-cased, the remainder
lower-cased (`[str(col).capitalize() for col in df_pivote.columns]`). -/
def capitalizar (s : String) : String :=
  match s.data with
  | [] => ""
  | c :: cs => String.mk (c.toUpper :: cs.map Char.toLower)

/-- The cell of `pivot_table(index='fecha', columns='casa', values='venta')`
after capitalising the column names: the column name `c` is resolved to the
first raw house whose capitalisation is `c`, and the cell holds the mean of
the sale prices of the matching records (the default `aggfunc` of
`pivot_table` is the mean). -/
def valorPivote (recs : List RegistroDolar) (d : Int) (c : String) : Option Rat :=
  match ((recs.map (·.casa)).dedup).find? (fun k => capitalizar k == c) with
  | some k =>
    let vs := (recs.filter (fun r => r.fecha == d && r.casa == k)).map (·.venta)
    if vs.isEmpty then none else some (vs.sum / (vs.length : Rat))
  | none => none

/-- Insert a date into a sorted duplicate-free list of dates. -/
def insertaUnico (x : Int) : List Int → List Int
  | [] => [x]
  | y :: ys => if x < y then x :: y :: ys else if x = y then y :: ys else y :: insertaUnico x ys

/-- The sorted, duplicate-free index built from a list of dates, as a pandas
index is (used for the pivot index and for the outer join). -/
def fechasOrdenadas (l : List Int) : List Int := l.foldr insertaUnico []

/-- The pivoted quote table: its (sorted, unique) date index, its capitalised
column names and its cell lookup. -/
structure TablaDolar where
  dates : List Int
  cols : List String
  val : Int → String → Option Rat

/-- The quote table built by `cargar_datos_dolar` when the `Oficial` column
exists: pivot, capitalised columns, and `dropna(subset=['Oficial'])`. -/
def tabla_dolar (recs : List RegistroDolar) : TablaDolar :=
  { dates := (fechasOrdenadas (recs.map (·.fecha))).filter
      (fun d => (valorPivote recs d "Oficial").isSome)
    cols := ((recs.map (·.casa)).dedup).map capitalizar
    val := valorPivote recs }

/-- Loader `cargar_datos_dolar`: when no column capitalises to `Oficial` the
`dropna(subset=['Oficial'])` raises a `KeyError`, the `except` branch runs
and the loader returns `None`; otherwise the pivoted table is returned. -/
def cargar_datos_dolar (recs : List RegistroDolar) : Option TablaDolar :=
  if "Oficial" ∈ ((recs.map (·.casa)).dedup).map capitalizar then some (tabla_dolar recs)
  else none

/-- A field of a raw rate record: either a date or a numeric value. -/
inductive Campo where
  | cFecha (d : Int)
  | cValor (v : Rat)
deriving DecidableEq

/-- Column access by label on one raw record (`df['fecha']`, `df['valor']`):
the value stored under the first field with the given name, if any. -/
def valorColumna (r : List (String × Campo)) (nombre : String) : Option Campo :=
  (r.find? (fun p => p.1 == nombre)).map (·.2)

/-- Loader `cargar_datos_plazo_fijo`: the raw records are loaded into a frame and
the columns named `fecha` and `valor` are read off (the latter renamed to
`TNA Plazo Fijo`).  An empty payload or a record without those labels makes
the column access raise, the `except` branch runs, and the loader returns
`None`.  The result is the list of `(fecha, valor)` pairs in input order. -/
def cargar_datos_plazo_fijo (data : List (List (String × Campo))) :
    Option (List (Int × Rat)) :=
  if data.isEmpty then none else
  data.mapM (fun r =>
    match valorColumna r "fecha", valorColumna r "valor" with
    | some (.cFecha d), some (.cValor v) => some (d, v)
    | _, _ => none)

/-- Forward fill `Series.ffill` over rows carrying an optional rate value: a missing cell
takes the most recent value above it, threaded through the accumulator. -/
def ffillCol : Option Rat → List (Int × Option Rat) → List (Int × Option Rat)
  | _, [] => []
  | prev, (d, v) :: rest =>
    match v with
    | some x => (d, some x) :: ffillCol (some x) rest
    | none => (d, prev) :: ffillCol prev rest

/-- Look a date up in a list of rows (first match on the index). -/
def buscaFecha : List (Int × Option Rat) → Int → Option Rat
  | [], _ => none
  | p :: rest, d => if p.1 == d then p.2 else buscaFecha rest d

/-- The joined table `df_completo`: its date index, the quote columns, the
quote cell lookup and the forward-filled rate lookup. -/
structure TablaCompleta where
  dates : List Int
  cols : List String
  qval : Int → String → Option Rat
  tna : Int → Option Rat

/-- Join `df_completo = datos_dolar.join(datos_pf, how='outer').sort_index()`,
then `ffill` of the `TNA Plazo Fijo` column only, then
`dropna(subset=datos_dolar.columns)`.  Quote cells are taken from the quote
table unchanged; the rate cell of a date is read from the forward-filled
joined rows over the sorted union of the two indices. -/
def df_completo (q : TablaDolar) (pf : List (Int × Rat)) : TablaCompleta :=
  let union := fechasOrdenadas (q.dates ++ pf.map (·.1))
  let filas := union.map (fun d => (d, (pf.find? (fun e => e.1 == d)).map (·.2)))
  let rellenado := ffillCol none filas
  { dates := union.filter (fun d => q.cols.all (fun c => (q.val d c).isSome))
    cols := q.cols
    qval := q.val
    tna := fun d => buscaFecha rellenado d }

/-- Winner rule `determinar_ganador`: the row-wise winner rule of the source.  The
dollar wins only when its return exceeds both the 1% floor and the deposit
return; otherwise the deposit wins on a strictly larger return; every other
case is the neutral label. -/
def determinar_ganador (variacion_dolar rendimiento_pf : Rat) : String :=
  if variacion_dolar > 1 ∧ variacion_dolar > rendimiento_pf then "🟢 Dólar"
  else if rendimiento_pf > variacion_dolar then "🔵 Plazo Fijo"
  else "⚪ Empate / Dólar < 1%"

/-- One row of `df_comparativa`; every derived cell is optional, `NaN`
being modelled as `none`. -/
structure Fila where
  fechaFinal : Int
  fechaInicial : Option Int
  valorFinal : Option Rat
  valorInicial : Option Rat
  tnaPF : Option Rat
  variacion : Option Rat
  rendimiento : Option Rat
  conclusion : Option String
deriving DecidableEq, Inhabited

/-- Sub-frame `df_completo[[c, 'TNA Plazo Fijo']].copy().dropna()` followed by
`sort_index(ascending=False)`: the dates carrying both the chosen quote and
a rate, most recent first. -/
def fechasComparativa (ct : TablaCompleta) (c : String) : List Int :=
  (ct.dates.filter (fun d => (ct.qval d c).isSome && (ct.tna d).isSome)).reverse

/-- Row lookup by signed position, as `shift(-n)` reads it: row `i` of the
descending frame receives the value of row `i + n` (out of range is `NaN`). -/
def getPos (l : List Int) (j : Int) : Option Int :=
  if 0 ≤ j then l[j.toNat]? else none

/-- One row of the comparison frame at index `i`, date `d`:
`Final` is the cell itself, `Inicial` and `Fecha Inicial` come from
`shift(-n)`, then the two returns `(Final/Inicial - 1)*100` and
`TNA/365*n`. -/
def filaEn (ct : TablaCompleta) (c : String) (n : Int) (fechas : List Int)
    (i : Nat) (d : Int) : Fila :=
  let fIni := getPos fechas ((i : Int) + n)
  let vFin := ct.qval d c
  let vIni := fIni.bind (fun d0 => ct.qval d0 c)
  let t := ct.tna d
  { fechaFinal := d
    fechaInicial := fIni
    valorFinal := vFin
    valorInicial := vIni
    tnaPF := t
    variacion :=
      match vFin, vIni with
      | some f, some x => some ((f / x - 1) * 100)
      | _, _ => none
    rendimiento := t.map (fun ta => ta / 365 * (n : Rat))
    conclusion := none }

/-- All rows of the comparison frame before the second `dropna`. -/
def filasPre (ct : TablaCompleta) (c : String) (n : Int) : List Fila :=
  let fechas := fechasComparativa ct c
  fechas.enum.map (fun p => filaEn ct c n fechas p.1 p.2)

/-- The `Conclusión` cell: `determinar_ganador` applied to the two returns
of the row. -/
def conclusionFila (r : Fila) : Option String :=
  match r.variacion, r.rendimiento with
  | some v, some p => some (determinar_ganador v p)
  | _, _ => none

/-- Comparison frame `df_comparativa`: rows with the computed columns, then
`dropna(subset=[Inicial, 'Fecha Inicial'])`, then the winner column applied
row-wise. -/
def df_comparativa (ct : TablaCompleta) (c : String) (n : Int) : List Fila :=
  ((filasPre ct c n).filter (fun r => r.valorInicial.isSome && r.fechaInicial.isSome)).map
    (fun r => { r with conclusion := conclusionFila r })

/-- Display `st.dataframe(df_display.head(20))`: the displayed table keeps the first
20 rows of the comparison frame. -/
def df_display (ct : TablaCompleta) (c : String) (n : Int) : List Fila :=
  (df_comparativa ct c n).take 20

/-- Options `opciones_dolar_comparativa = [d for d in ['Blue', 'Mep', 'Ccl'] if d in
df_completo.columns]`: the quote columns offered for comparison. -/
def opciones_dolar_comparativa (ct : TablaCompleta) : List String :=
  ["Blue", "Mep", "Ccl"].filter (fun d => ct.cols.contains d)

/-- Widget `st.number_input('...', min_value=1, max_value=365, value=30)`: the
widget only ever yields a value inside its bounds. -/
def periodo_dias_input (u : Int) : Int := max 1 (min 365 u)

/-- Guard `if dolar_a_comparar and periodo_dias:` — the comparison section runs
only when a quote column is selected (a non-empty string) and the period is
non-zero (Python truthiness); otherwise nothing is rendered. -/
def seccionComparativa (ct : TablaCompleta) (sel : Option String) (n : Int) :
    Option (List Fila) :=
  match sel with
  | some c => if c ≠ "" ∧ n ≠ 0 then some (df_comparativa ct c n) else none
  | none => none

/-- What the page shows: either the content built from `df_completo`, or the
`st.error` fallback. -/
inductive Pantalla where
  | contenido (ct : TablaCompleta)
  | errorCarga

/-- The load guard of the page: the content runs only when both loaders
returned a value and neither frame is empty; otherwise
`st.error("No se pudieron cargar todos los datos...")` is shown. -/
def paginaPrincipal (dd : Option TablaDolar) (dpf : Option (List (Int × Rat))) :
    Pantalla :=
  match dd, dpf with
  | some q, some pf =>
    if q.dates ≠ [] ∧ pf ≠ [] then .contenido (df_completo q pf) else .errorCarga
  | _, _ => .errorCarga

/-- Accumulated forward-fill source: the value of the last row at or before
`d` that carries a value, scanning the rows in order. -/
def ultimoConValor : List (Int × Option Rat) → Int → Option Rat
  | [], _ => none
  | (t, v) :: rest, d =>
    if t ≤ d then (ultimoConValor rest d).or v else ultimoConValor rest d

/-- Modelled from the spec: the best (most recent) rate observation at or
before a date — the entry with the greatest date `≤ d`. -/
def mejorEntrada : List (Int × Rat) → Int → Option (Int × Rat)
  | [], _ => none
  | e :: rest, d =>
    match mejorEntrada rest d with
    | none => if e.1 ≤ d then some e else none
    | some a => if e.1 ≤ d ∧ a.1 < e.1 then some e else some a

/-- Modelled from the spec: "the rate observed on that date if one exists,
otherwise the most recent earlier observed rate, and missing when no earlier
observation exists". -/
def tasaSegunSpec (pf : List (Int × Rat)) (d : Int) : Option Rat :=
  (mejorEntrada pf d).map (·.2)


/-! ### Concrete series used to exercise the pipeline -/

/-- A small quote history: three trading dates 0, 2, 3 (a one-day gap
between the first two) with an official and a blue house. -/
def recsEj : List RegistroDolar :=
  [⟨0, "oficial", 500⟩, ⟨0, "blue", 100⟩,
   ⟨2, "oficial", 505⟩, ⟨2, "blue", 110⟩,
   ⟨3, "oficial", 510⟩, ⟨3, "blue", 121⟩]

/-- A rate series with a single observation at date 0. -/
def pfEj : List (Int × Rat) := [(0, 73/2)]

/-- The pivoted quote table of `recsEj`. -/
def tablaEj : TablaDolar := tabla_dolar recsEj

/-- The joined table of `recsEj` and `pfEj`. -/
def ctEj : TablaCompleta := df_completo tablaEj pfEj

/-- The worked scenario of the spec: Oficial 800 at date 0 and 840 thirty
days later. -/
def recsC3 : List RegistroDolar := [⟨0, "oficial", 800⟩, ⟨30, "oficial", 840⟩]

/-- The worked scenario's rate payload: one record, 40.0 at date 30. -/
def rawPfC3 : List (List (String × Campo)) :=
  [[("fecha", Campo.cFecha 30), ("valor", Campo.cValor 40)]]

/-! ### Helper lemmas on the sorted index -/

theorem mem_insertaUnico {a x : Int} {l : List Int} :
    a ∈ insertaUnico x l ↔ a = x ∨ a ∈ l := by
  induction l with
  | nil => simp [insertaUnico]
  | cons y ys ih =>
    unfold insertaUnico
    split_ifs with h1 h2
    · simp [List.mem_cons]
    · subst h2
      simp [List.mem_cons]
    · simp only [List.mem_cons, ih]
      tauto

theorem sorted_insertaUnico (x : Int) {l : List Int} (h : List.Sorted (· < ·) l) :
    List.Sorted (· < ·) (insertaUnico x l) := by
  induction l with
  | nil => simp [insertaUnico]
  | cons y ys ih =>
    rw [List.sorted_cons] at h
    obtain ⟨hy, hys⟩ := h
    unfold insertaUnico
    split_ifs with h1 h2
    · rw [List.sorted_cons]
      refine ⟨?_, by rw [List.sorted_cons]; exact ⟨hy, hys⟩⟩
      intro b hb
      rcases List.mem_cons.mp hb with rfl | hb
      · exact h1
      · exact h1.trans (hy b hb)
    · subst h2
      rw [List.sorted_cons]
      exact ⟨hy, hys⟩
    · rw [List.sorted_cons]
      refine ⟨?_, ih hys⟩
      intro b hb
      rcases mem_insertaUnico.mp hb with rfl | hb
      · omega
      · exact hy b hb

theorem mem_fechasOrdenadas {a : Int} {l : List Int} :
    a ∈ fechasOrdenadas l ↔ a ∈ l := by
  induction l with
  | nil => simp [fechasOrdenadas]
  | cons x xs ih =>
    rw [show fechasOrdenadas (x :: xs) = insertaUnico x (fechasOrdenadas xs) from rfl,
      mem_insertaUnico, ih, List.mem_cons]

theorem sorted_fechasOrdenadas (l : List Int) :
    List.Sorted (· < ·) (fechasOrdenadas l) := by
  induction l with
  | nil => simp [fechasOrdenadas]
  | cons x xs ih => exact sorted_insertaUnico x ih

/-! ### Helper lemmas on forward fill -/

theorem ffillCol_cons (prev : Option Rat) (t : Int) (v : Option Rat)
    (rest : List (Int × Option Rat)) :
    ffillCol prev ((t, v) :: rest) = (t, v.or prev) :: ffillCol (v.or prev) rest := by
  cases v <;> rfl

theorem ultimoConValor_eq_none (rows : List (Int × Option Rat)) (d : Int)
    (h : ∀ t ∈ rows.map Prod.fst, ¬ t ≤ d) : ultimoConValor rows d = none := by
  induction rows with
  | nil => rfl
  | cons p rest ih =>
    obtain ⟨t, v⟩ := p
    simp only [List.map_cons, List.mem_cons] at h
    rw [ultimoConValor, if_neg (h t (Or.inl rfl))]
    exact ih fun u hu => h u (Or.inr hu)

/-- Looking a present date up after the forward fill yields the value of
the last row at or before it carrying a value, or else the accumulator. -/
theorem busca_ffill (rows : List (Int × Option Rat)) (prev : Option Rat) (d : Int)
    (hsort : List.Sorted (· < ·) (rows.map Prod.fst)) (hd : d ∈ rows.map Prod.fst) :
    buscaFecha (ffillCol prev rows) d = (ultimoConValor rows d).or prev := by
  induction rows generalizing prev with
  | nil => simp at hd
  | cons p rest ih =>
    obtain ⟨t, v⟩ := p
    rw [List.map_cons, List.sorted_cons] at hsort
    obtain ⟨ht, hrest⟩ := hsort
    rw [ffillCol_cons]
    rw [List.map_cons] at hd
    rcases List.mem_cons.mp hd with rfl | hdrest
    · rw [buscaFecha, if_pos (by simp), ultimoConValor, if_pos le_rfl,
        ultimoConValor_eq_none rest d (fun u hu => not_le.mpr (ht u hu)), Option.none_or]
    · have htd : t < d := ht d hdrest
      rw [buscaFecha, if_neg (by simp [htd.ne]), ih (v.or prev) hrest hdrest,
        ultimoConValor, if_pos htd.le, Option.or_assoc]

/-! ### Characterisation of the forward-filled rate -/

/-- What it means for an optional value to be the rate of the most recent
observation at or before `d`, among the entries whose date lies in `us`. -/
def EsMejorEn (pf : List (Int × Rat)) (us : List Int) (d : Int) : Option Rat → Prop
  | none => ∀ e ∈ pf, e.1 ∈ us → ¬ e.1 ≤ d
  | some v => ∃ e, e ∈ pf ∧ e.1 ∈ us ∧ e.1 ≤ d ∧ e.2 = v ∧
      ∀ e2 ∈ pf, e2.1 ∈ us → e2.1 ≤ d → e2.1 ≤ e.1

theorem mejorEntrada_spec (pf : List (Int × Rat)) (d : Int) :
    (mejorEntrada pf d = none → ∀ e ∈ pf, ¬ e.1 ≤ d) ∧
    (∀ a, mejorEntrada pf d = some a →
      a ∈ pf ∧ a.1 ≤ d ∧ ∀ e ∈ pf, e.1 ≤ d → e.1 ≤ a.1) := by
  induction pf with
  | nil =>
    refine ⟨fun _ e he => absurd he (List.not_mem_nil e), fun a ha => ?_⟩
    simp [mejorEntrada] at ha
  | cons e0 rest ih =>
    obtain ⟨ihn, ihs⟩ := ih
    rcases hrec : mejorEntrada rest d with _ | a
    · have hrn := ihn hrec
      by_cases h0 : e0.1 ≤ d
      · refine ⟨fun hnone => ?_, fun a ha => ?_⟩
        · simp only [mejorEntrada, hrec, if_pos h0] at hnone
          exact absurd hnone (by simp)
        · simp only [mejorEntrada, hrec, if_pos h0, Option.some.injEq] at ha
          subst ha
          refine ⟨List.mem_cons_self _ _, h0, ?_⟩
          intro e he hle
          rcases List.mem_cons.mp he with rfl | he
          · exact le_rfl
          · exact absurd hle (hrn e he)
      · refine ⟨fun _ e he => ?_, fun a ha => ?_⟩
        · rcases List.mem_cons.mp he with rfl | he
          · exact h0
          · exact hrn e he
        · simp only [mejorEntrada, hrec, if_neg h0] at ha
          exact absurd ha (by simp)
    · obtain ⟨haMem, haLe, haMax⟩ := ihs a hrec
      refine ⟨fun hnone => ?_, fun b hb => ?_⟩
      · simp only [mejorEntrada, hrec] at hnone
        split_ifs at hnone
      · simp only [mejorEntrada, hrec] at hb
        split_ifs at hb with hcond
        · rw [Option.some.injEq] at hb
          subst hb
          refine ⟨List.mem_cons_self _ _, hcond.1, ?_⟩
          intro e he hle
          rcases List.mem_cons.mp he with rfl | he
          · exact le_rfl
          · exact (haMax e he hle).trans hcond.2.le
        · rw [Option.some.injEq] at hb
          subst hb
          refine ⟨List.mem_cons.mpr (Or.inr haMem), haLe, ?_⟩
          intro e he hle
          rcases List.mem_cons.mp he with rfl | he
          · by_contra hlt
            exact hcond ⟨hle, not_le.mp hlt⟩
          · exact haMax e he hle

theorem tasaSegunSpec_esMejorEn (pf : List (Int × Rat)) (us : List Int) (d : Int)
    (hsub : ∀ e ∈ pf, e.1 ∈ us) : EsMejorEn pf us d (tasaSegunSpec pf d) := by
  obtain ⟨hn, hs⟩ := mejorEntrada_spec pf d
  unfold tasaSegunSpec
  rcases hme : mejorEntrada pf d with _ | a
  · exact fun e he _ => hn hme e he
  · obtain ⟨haMem, haLe, haMax⟩ := hs a hme
    exact ⟨a, haMem, hsub a haMem, haLe, rfl, fun e2 he2 _ hle => haMax e2 he2 hle⟩

theorem ultimo_esMejorEn (pf : List (Int × Rat)) (us : List Int) (d : Int)
    (hs : List.Sorted (· < ·) us) :
    EsMejorEn pf us d
      (ultimoConValor (us.map (fun u => (u, (pf.find? (fun e => e.1 == u)).map (·.2)))) d) := by
  induction us with
  | nil => exact fun e _ h => absurd h (List.not_mem_nil _)
  | cons u rest ih =>
    rw [List.sorted_cons] at hs
    obtain ⟨hu, hrest⟩ := hs
    have ihr := ih hrest
    rw [List.map_cons, ultimoConValor]
    by_cases hud : u ≤ d
    · rw [if_pos hud]
      rcases ho : ultimoConValor (rest.map (fun u => (u, (pf.find? (fun e => e.1 == u)).map (·.2)))) d
        with _ | w
      · rw [ho] at ihr
        rcases hf : pf.find? (fun e => e.1 == u) with _ | e0
        · rw [ho, hf]
          intro e he hmem hle
          rcases List.mem_cons.mp hmem with heq | hmem
          · have := List.find?_eq_none.mp hf e he
            simp [heq] at this
          · exact ihr e he hmem hle
        · rw [ho, hf]
          have he0 : e0 ∈ pf := List.mem_of_find?_eq_some hf
          have he0u : e0.1 = u := by simpa using List.find?_some hf
          refine ⟨e0, he0, by rw [he0u]; exact List.mem_cons_self _ _,
            by rw [he0u]; exact hud, rfl, ?_⟩
          intro e2 he2 hmem hle
          rcases List.mem_cons.mp hmem with heq | hmem
          · rw [heq, he0u]
          · exact absurd hle (ihr e2 he2 hmem)
      · rw [ho] at ihr ⊢
        obtain ⟨e, heMem, heIn, heLe, heVal, heMax⟩ := ihr
        refine ⟨e, heMem, List.mem_cons.mpr (Or.inr heIn), heLe, heVal, ?_⟩
        intro e2 he2 hmem hle
        rcases List.mem_cons.mp hmem with heq | hmem
        · rw [heq]
          exact (hu e.1 heIn).le
        · exact heMax e2 he2 hmem hle
    · rw [if_neg hud]
      rcases ho : ultimoConValor (rest.map (fun u => (u, (pf.find? (fun e => e.1 == u)).map (·.2)))) d
        with _ | w
      · rw [ho] at ihr ⊢
        intro e he hmem hle
        rcases List.mem_cons.mp hmem with heq | hmem
        · rw [heq] at hle
          exact hud hle
        · exact ihr e he hmem hle
      · rw [ho] at ihr ⊢
        obtain ⟨e, heMem, heIn, heLe, heVal, heMax⟩ := ihr
        refine ⟨e, heMem, List.mem_cons.mpr (Or.inr heIn), heLe, heVal, ?_⟩
        intro e2 he2 hmem hle
        rcases List.mem_cons.mp hmem with heq | hmem
        · rw [heq] at hle
          exact absurd hle hud
        · exact heMax e2 he2 hmem hle

theorem esMejorEn_unique (pf : List (Int × Rat)) (us : List Int) (d : Int)
    (hnd : (pf.map (·.1)).Nodup) :
    ∀ o1 o2, EsMejorEn pf us d o1 → EsMejorEn pf us d o2 → o1 = o2 := by
  have hinj := List.inj_on_of_nodup_map hnd
  intro o1 o2 h1 h2
  match o1, o2 with
  | none, none => rfl
  | none, some v =>
    obtain ⟨e, heMem, heIn, heLe, _, _⟩ := h2
    exact absurd heLe (h1 e heMem heIn)
  | some v, none =>
    obtain ⟨e, heMem, heIn, heLe, _, _⟩ := h1
    exact absurd heLe (h2 e heMem heIn)
  | some v1, some v2 =>
    obtain ⟨e1, h1Mem, h1In, h1Le, h1Val, h1Max⟩ := h1
    obtain ⟨e2, h2Mem, h2In, h2Le, h2Val, h2Max⟩ := h2
    have he : e1 = e2 := hinj h1Mem h2Mem
      (le_antisymm (h2Max e1 h1Mem h1In h1Le) (h1Max e2 h2Mem h2In h2Le))
    rw [← h1Val, ← h2Val, he]

/-! ### Claim theorems: winner rule, row shift, worked scenario, guards,
rate normaliser, period handling -/

/-- C1 counterexample: with a currency return of 0.5% and a deposit return
of 0.3% the deposit return does not exceed the currency return, so under
the claimed canonical rule the currency should win; the code instead
produces the third, neutral label. -/
theorem C1_counterexample :
    determinar_ganador (1/2) (3/10) = "⚪ Empate / Dólar < 1%" ∧
    determinar_ganador (1/2) (3/10) ≠ "🟢 Dólar" ∧
    determinar_ganador (1/2) (3/10) ≠ "🔵 Plazo Fijo" ∧
    ¬ ((3 : Rat)/10 > (1 : Rat)/2) := by
  have h : determinar_ganador (1/2) (3/10) = "⚪ Empate / Dólar < 1%" := by
    unfold determinar_ganador
    rw [if_neg (by norm_num), if_neg (by norm_num)]
  exact ⟨h, by rw [h]; decide, by rw [h]; decide, by norm_num⟩

/-- C1 (amended): the winner classification follows the stricter variant:
the deposit label appears exactly when the deposit return strictly exceeds
the currency return; the currency label exactly when the currency return
exceeds both the 1% floor and the deposit return; and otherwise (including
equal returns) the neutral label. -/
theorem C1_amended_rule (v p : Rat) :
    (determinar_ganador v p = "🔵 Plazo Fijo" ↔ v < p) ∧
    (determinar_ganador v p = "🟢 Dólar" ↔ 1 < v ∧ p < v) ∧
    (determinar_ganador v p = "⚪ Empate / Dólar < 1%" ↔ (v ≤ 1 ∨ v ≤ p) ∧ p ≤ v) := by
  unfold determinar_ganador
  split_ifs with h1 h2
  · obtain ⟨hv1, hvp⟩ := h1
    refine ⟨⟨fun h => absurd h (by decide), fun h => absurd h (not_lt.mpr hvp.le)⟩,
      ⟨fun _ => ⟨hv1, hvp⟩, fun _ => rfl⟩,
      ⟨fun h => absurd h (by decide), fun h => ?_⟩⟩
    rcases h.1 with h3 | h3
    · exact absurd hv1 (not_lt.mpr h3)
    · exact absurd hvp (not_lt.mpr h3)
  · refine ⟨⟨fun _ => h2, fun _ => rfl⟩,
      ⟨fun h => absurd h (by decide), fun h => absurd h2 (not_lt.mpr h.2.le)⟩,
      ⟨fun h => absurd h (by decide), fun h => absurd h2 (not_lt.mpr h.2)⟩⟩
  · have hpv : p ≤ v := not_lt.mp h2
    have hcases : v ≤ 1 ∨ v ≤ p := by
      by_cases hv1 : 1 < v
      · right
        by_contra hvp
        exact h1 ⟨hv1, not_le.mp hvp⟩
      · exact Or.inl (not_lt.mp hv1)
    refine ⟨⟨fun h => absurd h (by decide), fun h => absurd h (not_lt.mpr hpv)⟩,
      ⟨fun h => absurd h (by decide), fun h => absurd h.2 (fun hlt => h1 ⟨h.1, hlt⟩)⟩,
      ⟨fun _ => ⟨hcases, hpv⟩, fun _ => rfl⟩⟩

/-- C2: with quote observations on dates 0, 2, 3 (a calendar gap between
date 0 and date 2) and period 1, the comparison row ending at date 2 takes
its start from date 0 — the previous row, two calendar days earlier — so
`period_start_date` is not `period_end_date - period_days`: the code
shifts by rows, not by calendar days. -/
theorem C2_code_eval :
    (df_comparativa ctEj "Blue" 1).map (fun r => (r.fechaFinal, r.fechaInicial)) =
      [(3, some 2), (2, some 0)] := by decide

/-- C3: on the spec's worked scenario (Oficial 800 at day 0, 840 at day 30,
rate 40 at day 30, period 30, field Oficial) the pipeline yields zero
eligible rows, not one: the day-0 row is dropped for lack of a rate at or
before it, the row shift cannot reach 30 rows back in a two-row table, and
`Oficial` is not even among the selectable comparison fields. -/
theorem C3_code_eval :
    ((cargar_datos_dolar recsC3).bind (fun q => (cargar_datos_plazo_fijo rawPfC3).map (fun pf =>
      ((df_comparativa (df_completo q pf) "Oficial" 30).length,
       opciones_dolar_comparativa (df_completo q pf))))) = some (0, []) := by decide

/-- C4 counterexample: with a loaded, non-empty quote table and an entirely
empty rate series the page takes the error branch (`st.error`), so the
combiner is never invoked and no empty comparison set is produced. -/
theorem C4_counterexample :
    paginaPrincipal (some tablaEj) (some []) = Pantalla.errorCarga := by
  simp [paginaPrincipal]

/-- C6 counterexample: two positionally identical raw rate records — date
first, value second — are treated differently depending on their field
labels: arbitrary labels make the loader fail with `None`, while the labels
`fecha`/`valor` succeed.  The normaliser binds by label, not by position. -/
theorem C6_counterexample :
    cargar_datos_plazo_fijo [[("date", Campo.cFecha 5), ("value", Campo.cValor 40)]] = none ∧
    cargar_datos_plazo_fijo [[("fecha", Campo.cFecha 5), ("valor", Campo.cValor 40)]] =
      some [(5, 40)] := by decide

theorem mapM_extrae (l : List (Int × Rat)) (f : Int × Rat → List (String × Campo))
    (hf : ∀ p : Int × Rat,
      (match valorColumna (f p) "fecha", valorColumna (f p) "valor" with
        | some (.cFecha d), some (.cValor v) => some (d, v)
        | _, _ => none) = some p) :
    ((l.map f).mapM (fun r =>
      match valorColumna r "fecha", valorColumna r "valor" with
      | some (.cFecha d), some (.cValor v) => some (d, v)
      | _, _ => none)) = some l := by
  induction l with
  | nil => rfl
  | cons p rest ih =>
    rw [List.map_cons, List.mapM_cons, hf p, ih]
    rfl

/-- C6 (amended): the rate normaliser binds the date and the value by the
field labels `fecha` and `valor`, in whichever order the fields appear;
it succeeds exactly on records carrying those labels. -/
theorem C6_amended (e : Int × Rat) (recs : List (Int × Rat)) :
    cargar_datos_plazo_fijo ((e :: recs).map
      (fun p => [("fecha", Campo.cFecha p.1), ("valor", Campo.cValor p.2)])) =
      some (e :: recs) ∧
    cargar_datos_plazo_fijo ((e :: recs).map
      (fun p => [("valor", Campo.cValor p.2), ("fecha", Campo.cFecha p.1)])) =
      some (e :: recs) := by
  constructor <;>
  · rw [cargar_datos_plazo_fijo, if_neg (by simp)]
    exact mapM_extrae _ _ (fun p => rfl)

/-- C7 counterexample: a period of 0 makes the comparison section silently
disappear (the truthiness guard yields nothing — no error is raised), and a
negative period is processed normally (the section renders), so no period
value fails with an `InvalidPeriod` error. -/
theorem C7_counterexample :
    seccionComparativa ctEj (some "Blue") 0 = none ∧
    (seccionComparativa ctEj (some "Blue") (-1)).isSome = true := by decide

/-- C7 (amended): there is no `InvalidPeriod` error: a period of 0 always
skips the comparison section silently, and the period widget constrains its
value to the range 1–365, so non-positive periods cannot arise from the UI. -/
theorem C7_amended (ct : TablaCompleta) (sel : Option String) (u : Int) :
    seccionComparativa ct sel 0 = none ∧
    1 ≤ periodo_dias_input u ∧ periodo_dias_input u ≤ 365 := by
  refine ⟨?_, le_max_left _ _, max_le (by norm_num) (min_le_left _ _)⟩
  cases sel with
  | none => rfl
  | some c => exact if_neg (by simp)

/-! ### Remaining claim theorems: empty rate series, forward-fill
semantics, eligibility, pivot mean, display truncation -/

theorem buscaFecha_ffill_none (l : List Int) (d : Int) :
    buscaFecha (ffillCol none (l.map (fun x => (x, (none : Option Rat))))) d = none := by
  induction l with
  | nil => rfl
  | cons x xs ih =>
    rw [List.map_cons, ffillCol_cons, buscaFecha]
    by_cases h : (x == d) = true
    · rw [if_pos h]
      rfl
    · rw [if_neg h]
      exact ih

/-- C4 (amended): with an entirely empty rate series the page's load guard
fails and the error fallback is shown without running the pipeline; the
combiner itself, applied to an empty rate series, leaves the rate missing
on every date, and the comparator then returns no rows at all. -/
theorem C4_amended (q : TablaDolar) (c : String) (n : Int) :
    paginaPrincipal (some q) (some []) = Pantalla.errorCarga ∧
    (∀ d, (df_completo q []).tna d = none) ∧
    df_comparativa (df_completo q []) c n = [] := by
  have htna : ∀ d, (df_completo q []).tna d = none := by
    intro d
    exact buscaFecha_ffill_none (fechasOrdenadas (q.dates ++ ([] : List (Int × Rat)).map (·.1))) d
  refine ⟨by simp [paginaPrincipal], htna, ?_⟩
  have hfc : fechasComparativa (df_completo q []) c = [] := by
    unfold fechasComparativa
    rw [List.filter_eq_nil_iff.mpr (fun a _ => by simp [htna a]), List.reverse_nil]
  unfold df_comparativa filasPre
  rw [hfc]
  rfl

/-- C5: on every date of the joined index, the forward-filled rate of the
combined table is the rate observed on that date if one exists, otherwise
the most recent earlier observed rate, and missing when there is none; the
quote cells are taken from the quote table unchanged (no forward fill). -/
theorem C5_confirmed (q : TablaDolar) (pf : List (Int × Rat)) (d : Int)
    (hnd : (pf.map (·.1)).Nodup)
    (hd : d ∈ fechasOrdenadas (q.dates ++ pf.map (·.1))) :
    (df_completo q pf).tna d = tasaSegunSpec pf d ∧
    (df_completo q pf).qval = q.val := by
  refine ⟨?_, rfl⟩
  have hsort := sorted_fechasOrdenadas (q.dates ++ pf.map (·.1))
  have hmapfst :
      ((fechasOrdenadas (q.dates ++ pf.map (·.1))).map
        (fun x => (x, (pf.find? (fun e => e.1 == x)).map (·.2)))).map Prod.fst
      = fechasOrdenadas (q.dates ++ pf.map (·.1)) := by
    have hcomp : (Prod.fst ∘ fun x : Int => (x, (pf.find? (fun e => e.1 == x)).map (·.2)))
        = id := funext fun x => rfl
    rw [List.map_map, hcomp, List.map_id]
  have h1 : (df_completo q pf).tna d
      = buscaFecha (ffillCol none ((fechasOrdenadas (q.dates ++ pf.map (·.1))).map
          (fun x => (x, (pf.find? (fun e => e.1 == x)).map (·.2))))) d := rfl
  rw [h1, busca_ffill _ none d (by rw [hmapfst]; exact hsort) (by rw [hmapfst]; exact hd),
    Option.or_none]
  exact esMejorEn_unique pf (fechasOrdenadas (q.dates ++ pf.map (·.1))) d hnd _ _
    (ultimo_esMejorEn pf _ d hsort)
    (tasaSegunSpec_esMejorEn pf _ d (fun e he => mem_fechasOrdenadas.mpr
      (List.mem_append.mpr (Or.inr (List.mem_map.mpr ⟨e, he, rfl⟩)))))

/-- C5 witness: the joined table of the concrete series agrees with the
spec's forward-fill description on date 2 (filled from the observation at
date 0). -/
theorem C5_witness :
    ((pfEj.map (·.1)).Nodup ∧
      (2 : Int) ∈ fechasOrdenadas (tablaEj.dates ++ pfEj.map (·.1))) ∧
    ((df_completo tablaEj pfEj).tna 2 = tasaSegunSpec pfEj 2 ∧
     (df_completo tablaEj pfEj).qval = tablaEj.val) :=
  ⟨⟨by decide, by decide⟩, C5_confirmed tablaEj pfEj 2 (by decide) (by decide)⟩

/-- C8: every row surviving the comparator's two `dropna` steps carries a
present start value, a present rate, a present end value, and both derived
returns; no output row references a missing value. -/
theorem C8_confirmed (ct : TablaCompleta) (c : String) (n : Int) (r : Fila)
    (hr : r ∈ df_comparativa ct c n) :
    r.valorInicial.isSome = true ∧ r.tnaPF.isSome = true ∧ r.valorFinal.isSome = true ∧
    r.variacion.isSome = true ∧ r.rendimiento.isSome = true := by
  unfold df_comparativa at hr
  obtain ⟨r0, hr0, rfl⟩ := List.mem_map.mp hr
  obtain ⟨hpre, hcond⟩ := List.mem_filter.mp hr0
  rw [Bool.and_eq_true] at hcond
  obtain ⟨hIni, hFIni⟩ := hcond
  unfold filasPre at hpre
  obtain ⟨p, hp, rfl⟩ := List.mem_map.mp hpre
  have hd : p.2 ∈ fechasComparativa ct c := by
    have h1 : p.2 ∈ (fechasComparativa ct c).enum.map Prod.snd :=
      List.mem_map.mpr ⟨p, hp, rfl⟩
    rwa [List.enum_map_snd] at h1
  have hd2 : ((ct.qval p.2 c).isSome && (ct.tna p.2).isSome) = true :=
    (List.mem_filter.mp (List.mem_reverse.mp hd)).2
  rw [Bool.and_eq_true] at hd2
  obtain ⟨hqv, htn⟩ := hd2
  simp only [filaEn] at hIni ⊢
  rcases hqe : ct.qval p.2 c with _ | f
  · rw [hqe] at hqv
    simp at hqv
  rcases hte : ct.tna p.2 with _ | tv
  · rw [hte] at htn
    simp at htn
  rcases hie : (getPos (fechasComparativa ct c) ((p.1 : Int) + n)).bind
      (fun d0 => ct.qval d0 c) with _ | x
  · rw [hie] at hIni
    simp at hIni
  simp

/-- Head membership for rows, used to pick a concrete output row. -/
theorem fila_headI_mem (l : List Fila) (h : l ≠ []) : l.headI ∈ l := by
  cases l with
  | nil => exact absurd rfl h
  | cons a l => exact List.mem_cons_self _ _

/-- C8 witness statement: see `C8_confirmed` applied to the head row of the
concrete comparison table. -/
theorem C8_witness :
    df_comparativa ctEj "Blue" 1 ≠ [] ∧
    ((df_comparativa ctEj "Blue" 1).headI.valorInicial.isSome = true ∧
     (df_comparativa ctEj "Blue" 1).headI.tnaPF.isSome = true ∧
     (df_comparativa ctEj "Blue" 1).headI.valorFinal.isSome = true ∧
     (df_comparativa ctEj "Blue" 1).headI.variacion.isSome = true ∧
     (df_comparativa ctEj "Blue" 1).headI.rendimiento.isSome = true) :=
  have h : df_comparativa ctEj "Blue" 1 ≠ [] := by decide
  ⟨h, C8_confirmed ctEj "Blue" 1 _ (fila_headI_mem _ h)⟩

/-- C9: when several raw quote records share a date and a house, the pivot
stores the arithmetic mean of their sale prices as the single cell for that
date and column, and the date is kept in the table. -/
theorem C9_confirmed (recs : List RegistroDolar) (q : TablaDolar) (d : Int) (k : String)
    (hq : cargar_datos_dolar recs = some q)
    (hk : ((recs.map (·.casa)).dedup).find? (fun c => capitalizar c == capitalizar k) = some k)
    (hne : recs.filter (fun r => r.fecha == d && r.casa == k) ≠ [])
    (hof : (valorPivote recs d "Oficial").isSome = true)
    (hd : d ∈ recs.map (·.fecha)) :
    q.val d (capitalizar k) =
      some ((((recs.filter (fun r => r.fecha == d && r.casa == k)).map (·.venta)).sum) /
        (((recs.filter (fun r => r.fecha == d && r.casa == k)).map (·.venta)).length : Rat)) ∧
    d ∈ q.dates := by
  have hq2 : q = tabla_dolar recs := by
    unfold cargar_datos_dolar at hq
    split_ifs at hq with hcond
    exact (Option.some.inj hq).symm
  subst hq2
  constructor
  · show valorPivote recs d (capitalizar k) = _
    unfold valorPivote
    rw [hk]
    show (if ((recs.filter (fun r => r.fecha == d && r.casa == k)).map (·.venta)).isEmpty
        then none else some _) = some _
    rw [if_neg]
    rw [List.isEmpty_iff, List.map_eq_nil_iff]
    exact hne
  · show d ∈ (fechasOrdenadas (recs.map (·.fecha))).filter _
    exact List.mem_filter.mpr ⟨mem_fechasOrdenadas.mpr hd, hof⟩

/-- Duplicate-record input used to witness the pivot mean. -/
def recsC9 : List RegistroDolar :=
  [⟨0, "oficial", 800⟩, ⟨0, "blue", 100⟩, ⟨0, "blue", 120⟩]

/-- C9 witness: two records for (date 0, house blue) with prices 100 and
120; the pivot cell is their mean. -/
theorem C9_witness :
    (cargar_datos_dolar recsC9 = some (tabla_dolar recsC9) ∧
     ((recsC9.map (·.casa)).dedup).find? (fun c => capitalizar c == capitalizar "blue")
       = some "blue" ∧
     recsC9.filter (fun r => r.fecha == 0 && r.casa == "blue") ≠ [] ∧
     (valorPivote recsC9 0 "Oficial").isSome = true ∧
     (0 : Int) ∈ recsC9.map (·.fecha)) ∧
    ((tabla_dolar recsC9).val 0 (capitalizar "blue") =
      some ((((recsC9.filter (fun r => r.fecha == 0 && r.casa == "blue")).map (·.venta)).sum) /
        (((recsC9.filter (fun r => r.fecha == 0 && r.casa == "blue")).map (·.venta)).length : Rat)) ∧
     (0 : Int) ∈ (tabla_dolar recsC9).dates) := by
  have hq : cargar_datos_dolar recsC9 = some (tabla_dolar recsC9) := by
    unfold cargar_datos_dolar
    rw [if_pos (by decide)]
  have hk : ((recsC9.map (·.casa)).dedup).find? (fun c => capitalizar c == capitalizar "blue")
      = some "blue" := by decide
  have hne : recsC9.filter (fun r => r.fecha == 0 && r.casa == "blue") ≠ [] := by decide
  have hof : (valorPivote recsC9 0 "Oficial").isSome = true := by decide
  have hd : (0 : Int) ∈ recsC9.map (·.fecha) := by decide
  exact ⟨⟨hq, hk, hne, hof, hd⟩, C9_confirmed recsC9 (tabla_dolar recsC9) 0 "blue" hq hk hne hof hd⟩

/-- C10: the displayed comparison table is the first 20 rows of the
comparison frame, which is sorted strictly descending by end date; the
display therefore holds at most the 20 most recent end dates. -/
theorem C10_confirmed (q : TablaDolar) (pf : List (Int × Rat)) (c : String) (n : Int) :
    df_display (df_completo q pf) c n = (df_comparativa (df_completo q pf) c n).take 20 ∧
    (df_display (df_completo q pf) c n).length ≤ 20 ∧
    List.Sorted (· > ·) ((df_comparativa (df_completo q pf) c n).map (·.fechaFinal)) := by
  refine ⟨rfl, ?_, ?_⟩
  · show ((df_comparativa (df_completo q pf) c n).take 20).length ≤ 20
    rw [List.length_take]
    exact min_le_left _ _
  · have hdates : List.Sorted (· < ·) (df_completo q pf).dates := by
      show List.Sorted (· < ·) ((fechasOrdenadas (q.dates ++ pf.map (·.1))).filter _)
      exact (sorted_fechasOrdenadas _).filter _
    have hfechas : List.Sorted (· > ·) (fechasComparativa (df_completo q pf) c) := by
      unfold fechasComparativa
      rw [List.Sorted, List.pairwise_reverse]
      exact hdates.filter _
    have hmapPre : (filasPre (df_completo q pf) c n).map (·.fechaFinal)
        = fechasComparativa (df_completo q pf) c := by
      unfold filasPre
      rw [List.map_map]
      have hcomp : ((fun r : Fila => r.fechaFinal) ∘ fun p : Nat × Int =>
          filaEn (df_completo q pf) c n (fechasComparativa (df_completo q pf) c) p.1 p.2)
          = Prod.snd := funext fun p => rfl
      rw [hcomp, List.enum_map_snd]
    have hmap : (df_comparativa (df_completo q pf) c n).map (·.fechaFinal)
        = ((filasPre (df_completo q pf) c n).filter
            (fun r => r.valorInicial.isSome && r.fechaInicial.isSome)).map (·.fechaFinal) := by
      unfold df_comparativa
      rw [List.map_map]
      have hcomp : ((fun r : Fila => r.fechaFinal) ∘ fun r : Fila =>
          { r with conclusion := conclusionFila r }) = fun r : Fila => r.fechaFinal :=
        funext fun r => rfl
      rw [hcomp]
    rw [hmap]
    refine hfechas.sublist ?_
    rw [← hmapPre]
    exact (List.filter_sublist _).map _

end MiApp
